import Mathlib

/-!
Verification of the log-preprocessing core of `app.py`: text normalization,
device-name extraction, event classification via two ordered regex patterns,
the per-line batch loop, and the row-building step of the sink flush.

Strings are modelled as `List Char`; the three regular expressions of the
source are embedded as values of a small regex type `RE` whose matcher
`RE.search` follows Python `re.search` semantics: leftmost starting
position first, and at each position greedy matching with backtracking,
character classes `\w`, `\s`, `\S`, `[-\w]`, case-insensitive literals.
-/

/-- ASCII model of Python `str.lower` applied per character: code points
65..90 (the letters A..Z) shift by 32, everything else is unchanged. -/
def charLower (c : Char) : Char :=
  if 65 ≤ c.toNat ∧ c.toNat ≤ 90 then Char.ofNat (c.toNat + 32) else c

/-- ASCII model of Python `\s` / `str.strip` whitespace. -/
def isSpaceChar (c : Char) : Bool :=
  c = ' ' || c = '\t' || c = '\n' || c = '\r' || c = '\x0b' || c = '\x0c'

/-- ASCII model of Python `\w`. -/
def isWordChar (c : Char) : Bool :=
  (('a' ≤ c ∧ c ≤ 'z') : Bool) || (('A' ≤ c ∧ c ≤ 'Z') : Bool) ||
  (('0' ≤ c ∧ c ≤ '9') : Bool) || c = '_'

/-- Python `\S`. -/
def isNonSpaceChar (c : Char) : Bool :=
  !(isSpaceChar c)

/-- Python character class `[-\w]`. -/
def isWordOrHyphen (c : Char) : Bool :=
  isWordChar c || c = '-'

/-- Python `str.strip`: drop leading and trailing whitespace. -/
def stripChars (s : List Char) : List Char :=
  ((s.dropWhile isSpaceChar).reverse.dropWhile isSpaceChar).reverse

/-- Regular expressions as used by the three patterns of the source:
case-insensitive literals, single-character classes, greedy Kleene star
of a class, concatenation, and capturing groups. -/
inductive RE : Type where
  | lit : List Char → RE
  | one : (Char → Bool) → RE
  | starC : (Char → Bool) → RE
  | cat : RE → RE → RE
  | grp : RE → RE

/-- Case-insensitive literal match at the front of the input (the
`re.IGNORECASE` flag of the source); returns the rest on success. -/
def ciMatch : List Char → List Char → Option (List Char)
  | [], s => some s
  | _ :: _, [] => none
  | p :: ps, c :: cs => if charLower p = charLower c then ciMatch ps cs else none

/-- All ways a regex can match at the front of the input, in backtracking
priority order (greedy alternatives first): each entry is the list of
captured groups, left to right, with the remaining input. The head of
the list is the match Python's engine returns. -/
def RE.run : RE → List Char → List (List (List Char) × List Char)
  | .lit l, s =>
      match ciMatch l s with
      | some t => [([], t)]
      | none => []
  | .one _, [] => []
  | .one p, c :: cs => if p c then [([], cs)] else []
  | .starC p, s =>
      (List.range ((s.takeWhile p).length + 1)).map
        (fun j => ([], s.drop ((s.takeWhile p).length - j)))
  | .cat a b, s =>
      (RE.run a s).flatMap
        (fun gt => (RE.run b gt.2).map (fun gt2 => (gt.1 ++ gt2.1, gt2.2)))
  | .grp r, s =>
      (RE.run r s).map (fun gt => (s.take (s.length - gt.2.length) :: gt.1, gt.2))

/-- Python `re.search`: try the pattern at each starting position, left to
right; report the captured groups of the first position that matches. -/
def RE.search (r : RE) : List Char → Option (List (List Char))
  | [] =>
      match (RE.run r []).head? with
      | some gt => some gt.1
      | none => none
  | c :: t =>
      match (RE.run r (c :: t)).head? with
      | some gt => some gt.1
      | none => RE.search r t

/-- `p+` for a character class, as the source patterns use `\w+` and `\S+`. -/
def plusC (p : Char → Bool) : RE :=
  .cat (.one p) (.starC p)

/-- `\s*`. -/
def wsStar : RE :=
  .starC isSpaceChar

/-- Number of capturing groups of a pattern. -/
def RE.grpCount : RE → Nat
  | .lit _ => 0
  | .one _ => 0
  | .starC _ => 0
  | .cat a b => RE.grpCount a + RE.grpCount b
  | .grp r => RE.grpCount r + 1

/-- Source pattern `%PM-4-ERR_DISABLE:\s*(\w+)\s*error detected on\s*(\S+)`
with `re.IGNORECASE`. -/
def ERR_DISABLE_PATTERN : RE :=
  .cat (.lit ("%PM-4-ERR_DISABLE:".toList))
    (.cat wsStar
      (.cat (.grp (plusC isWordChar))
        (.cat wsStar
          (.cat (.lit ("error detected on".toList))
            (.cat wsStar (.grp (plusC isNonSpaceChar)))))))

/-- Source pattern
`%PM-4-ERR_RECOVER:\s*Attempting to recover from\s*(\w+)\s*err-disable state on\s*(\S+)`
with `re.IGNORECASE`. -/
def RECOVER_PATTERN : RE :=
  .cat (.lit ("%PM-4-ERR_RECOVER:".toList))
    (.cat wsStar
      (.cat (.lit ("Attempting to recover from".toList))
        (.cat wsStar
          (.cat (.grp (plusC isWordChar))
            (.cat wsStar
              (.cat (.lit ("err-disable state on".toList))
                (.cat wsStar (.grp (plusC isNonSpaceChar)))))))))

/-- Source pattern `(\w+[-\w]*)\s*%PM-4` with `re.IGNORECASE`. -/
def DEVICE_PATTERN : RE :=
  .cat (.grp (.cat (plusC isWordChar) (.starC isWordOrHyphen)))
    (.cat wsStar (.lit ("%PM-4".toList)))

/-- The sentinel returned when no device token is found. -/
def unknownStr : List Char :=
  "unknown".toList

/-- `preprocess_text` of the source: empty check, lowercase, strip. -/
def preprocess_text (raw_log : List Char) : List Char :=
  if raw_log = [] then []
  else stripChars (raw_log.map charLower)

/-- `extract_device_name` of the source: search `DEVICE_PATTERN` in the raw
line, return group 1, or the sentinel when the input is empty or nothing
matches. -/
def extract_device_name (raw_log : List Char) : List Char :=
  if raw_log = [] then unknownStr
  else
    match RE.search DEVICE_PATTERN raw_log with
    | some gs => gs.headD unknownStr
    | none => unknownStr

/-- Classifier output: the dict returned by `extract_fields`. -/
structure ExtractedFields where
  event_type : List Char
  device_name : List Char
  reason : List Char
  interface : List Char
deriving DecidableEq, Repr

/-- `extract_fields` of the source: empty-text guard, search both patterns,
ERR_DISABLE branch first, positional groups (reason, interface). -/
def extract_fields (preprocessed_text raw_log : List Char) : Option ExtractedFields :=
  if preprocessed_text = [] then none
  else
    let err_match := RE.search ERR_DISABLE_PATTERN preprocessed_text
    let rec_match := RE.search RECOVER_PATTERN preprocessed_text
    let device_name := extract_device_name raw_log
    match err_match with
    | some gs =>
        some ⟨("ERR_DISABLE".toList), device_name, gs.headD [], (gs.drop 1).headD []⟩
    | none =>
        match rec_match with
        | some gs =>
            some ⟨("ERR_RECOVER".toList), device_name, gs.headD [], (gs.drop 1).headD []⟩
        | none => none

/-- A record appended to `processed_records` in the `process` loop. -/
structure BQRecord where
  event_timestamp : List Char
  device_name : List Char
  interface : List Char
  error_reason : List Char
  raw_message : List Char
deriving DecidableEq, Repr

/-- The per-line loop of the `process` endpoint: skip blank lines (counted),
preprocess, classify, and build a record per matched line. `clock k` models
the `datetime.utcnow()` call made for the k-th matched line. Returns the
record sequence and the skipped-line count. -/
def process_lines (clock : Nat → List Char) : Nat → List (List Char) → List BQRecord × Nat
  | _, [] => ([], 0)
  | k, line :: rest =>
    if line = [] ∨ stripChars line = [] then
      let p := process_lines clock k rest
      (p.1, p.2 + 1)
    else
      match extract_fields (preprocess_text line) line with
      | some ex =>
          let p := process_lines clock (k + 1) rest
          (⟨clock k, ex.device_name, ex.interface, ex.reason, line⟩ :: p.1, p.2)
      | none => process_lines clock k rest

/-- A line produces a record exactly when it is not blank and the classifier
matches it. -/
def lineMatches (line : List Char) : Bool :=
  if line = [] ∨ stripChars line = [] then false
  else (extract_fields (preprocess_text line) line).isSome

/-- A row as prepared by `insert_to_bigquery` before the client call. -/
structure BQRow where
  event_timestamp : List Char
  device_name : List Char
  interface : List Char
  error_reason : List Char
  raw_message : List Char
  ingestion_time : List Char
deriving DecidableEq, Repr

/-- The row-building step of `insert_to_bigquery`: `current_time` is captured
once per call and written into every row. -/
def insert_to_bigquery_rows (current_time : List Char) (records : List BQRecord) : List BQRow :=
  if records = [] then []
  else
    records.map (fun record =>
      ⟨record.event_timestamp, record.device_name, record.interface,
       record.error_reason, record.raw_message, current_time⟩)

/-! ### Basic facts about the character model -/

theorem charToNat_ofNat {n : Nat} (h : n.isValidChar) : (Char.ofNat n).toNat = n := by
  simp only [Char.ofNat, dif_pos h, Char.ofNatAux, Char.toNat, UInt32.toNat]
  simp

theorem charLower_charLower (c : Char) : charLower (charLower c) = charLower c := by
  by_cases h : 65 ≤ c.toNat ∧ c.toNat ≤ 90
  · have hv : (c.toNat + 32).isValidChar := Or.inl (by omega)
    have ht : (Char.ofNat (c.toNat + 32)).toNat = c.toNat + 32 := charToNat_ofNat hv
    rw [show charLower c = Char.ofNat (c.toNat + 32) from if_pos h]
    exact if_neg (by rw [ht]; omega)
  · rw [show charLower c = c from if_neg h]
    exact if_neg h

theorem map_charLower_eq_self {s : List Char} (h : ∀ c ∈ s, charLower c = c) :
    s.map charLower = s := by
  have := List.map_congr_left (l := s) (f := charLower) (g := id) (fun c hc => h c hc)
  simpa using this

theorem mem_of_stripChars {s : List Char} {c : Char} (h : c ∈ stripChars s) : c ∈ s := by
  unfold stripChars at h
  rw [List.mem_reverse] at h
  have h1 := (List.dropWhile_sublist _).subset h
  rw [List.mem_reverse] at h1
  exact (List.dropWhile_sublist _).subset h1

/-! ### Structural facts about the regex engine -/

theorem ciMatch_append (l : List Char) : ∀ s t : List Char, ciMatch l s = some t → ∃ u, u ++ t = s := by
  induction l with
  | nil =>
    intro s t h
    simp only [ciMatch, Option.some.injEq] at h
    exact ⟨[], h.symm⟩
  | cons p ps ih =>
    intro s t h
    cases s with
    | nil => simp [ciMatch] at h
    | cons c cs =>
      by_cases hc : charLower p = charLower c
      · rw [ciMatch, if_pos hc] at h
        obtain ⟨u, hu⟩ := ih cs t h
        exact ⟨c :: u, by simp [hu]⟩
      · rw [ciMatch, if_neg hc] at h
        exact absurd h (by simp)

/-- The remaining input of any match alternative is a suffix of the input. -/
theorem run_rest_append : ∀ (r : RE) (s : List Char) (gs : List (List Char)) (t : List Char),
    (gs, t) ∈ RE.run r s → ∃ u, u ++ t = s := by
  intro r
  induction r with
  | lit l =>
    intro s gs t h
    simp only [RE.run] at h
    cases hm : ciMatch l s with
    | none => rw [hm] at h; simp at h
    | some t' =>
      rw [hm] at h
      simp only [List.mem_singleton, Prod.mk.injEq] at h
      exact ciMatch_append l s t (h.2 ▸ hm)
  | one p =>
    intro s gs t h
    cases s with
    | nil => simp [RE.run] at h
    | cons c cs =>
      simp only [RE.run] at h
      by_cases hc : p c
      · rw [if_pos hc] at h
        simp only [List.mem_singleton, Prod.mk.injEq] at h
        exact ⟨[c], by simp [h.2]⟩
      · rw [if_neg hc] at h
        simp at h
  | starC p =>
    intro s gs t h
    simp only [RE.run, List.mem_map, List.mem_range] at h
    obtain ⟨j, _, heq⟩ := h
    rw [Prod.mk.injEq] at heq
    exact ⟨s.take ((s.takeWhile p).length - j), by rw [← heq.2]; exact List.take_append_drop _ _⟩
  | cat a b iha ihb =>
    intro s gs t h
    simp only [RE.run, List.mem_flatMap, List.mem_map] at h
    obtain ⟨⟨g1, t1⟩, h1, ⟨g2, t2⟩, h2, heq⟩ := h
    rw [Prod.mk.injEq] at heq
    obtain ⟨u1, hu1⟩ := iha s g1 t1 h1
    obtain ⟨u2, hu2⟩ := ihb t1 g2 t2 h2
    exact ⟨u1 ++ u2, by rw [List.append_assoc, ← heq.2, hu2, hu1]⟩
  | grp r ih =>
    intro s gs t h
    simp only [RE.run, List.mem_map] at h
    obtain ⟨⟨g', t'⟩, hm, heq⟩ := h
    rw [Prod.mk.injEq] at heq
    exact heq.2 ▸ ih s g' t' hm

/-- Every captured group is a contiguous substring of the input. -/
theorem run_caps_append : ∀ (r : RE) (s : List Char) (gs : List (List Char)) (t : List Char),
    (gs, t) ∈ RE.run r s → ∀ g ∈ gs, ∃ u v, u ++ g ++ v = s := by
  intro r
  induction r with
  | lit l =>
    intro s gs t h
    simp only [RE.run] at h
    cases hm : ciMatch l s with
    | none => rw [hm] at h; simp at h
    | some t' =>
      rw [hm] at h
      simp only [List.mem_singleton, Prod.mk.injEq] at h
      intro g hg
      rw [h.1] at hg
      simp at hg
  | one p =>
    intro s gs t h
    cases s with
    | nil => simp [RE.run] at h
    | cons c cs =>
      simp only [RE.run] at h
      by_cases hc : p c
      · rw [if_pos hc] at h
        simp only [List.mem_singleton, Prod.mk.injEq] at h
        intro g hg
        rw [h.1] at hg
        simp at hg
      · rw [if_neg hc] at h
        simp at h
  | starC p =>
    intro s gs t h
    simp only [RE.run, List.mem_map, List.mem_range] at h
    obtain ⟨j, _, heq⟩ := h
    rw [Prod.mk.injEq] at heq
    intro g hg
    rw [← heq.1] at hg
    simp at hg
  | cat a b iha ihb =>
    intro s gs t h
    simp only [RE.run, List.mem_flatMap, List.mem_map] at h
    obtain ⟨⟨g1, t1⟩, h1, ⟨g2, t2⟩, h2, heq⟩ := h
    rw [Prod.mk.injEq] at heq
    intro g hg
    rw [← heq.1] at hg
    rcases List.mem_append.mp hg with hg' | hg'
    · exact iha s g1 t1 h1 g hg'
    · obtain ⟨u, v, huv⟩ := ihb t1 g2 t2 h2 g hg'
      obtain ⟨u1, hu1⟩ := run_rest_append a s g1 t1 h1
      exact ⟨u1 ++ u, v, by rw [← hu1, ← huv]; simp [List.append_assoc]⟩
  | grp r ih =>
    intro s gs t h
    simp only [RE.run, List.mem_map] at h
    obtain ⟨⟨g', t'⟩, hm, heq⟩ := h
    rw [Prod.mk.injEq] at heq
    intro g hg
    rw [← heq.1] at hg
    rcases List.mem_cons.mp hg with hg' | hg'
    · exact ⟨[], s.drop (s.length - t'.length), by rw [hg']; simp [List.take_append_drop]⟩
    · exact ih s g' t' hm g hg'

/-- Every match alternative produces exactly one capture per group. -/
theorem run_caps_length : ∀ (r : RE) (s : List Char) (gs : List (List Char)) (t : List Char),
    (gs, t) ∈ RE.run r s → gs.length = RE.grpCount r := by
  intro r
  induction r with
  | lit l =>
    intro s gs t h
    simp only [RE.run] at h
    cases hm : ciMatch l s with
    | none => rw [hm] at h; simp at h
    | some t' =>
      rw [hm] at h
      simp only [List.mem_singleton, Prod.mk.injEq] at h
      rw [h.1]
      rfl
  | one p =>
    intro s gs t h
    cases s with
    | nil => simp [RE.run] at h
    | cons c cs =>
      simp only [RE.run] at h
      by_cases hc : p c
      · rw [if_pos hc] at h
        simp only [List.mem_singleton, Prod.mk.injEq] at h
        rw [h.1]
        rfl
      · rw [if_neg hc] at h
        simp at h
  | starC p =>
    intro s gs t h
    simp only [RE.run, List.mem_map, List.mem_range] at h
    obtain ⟨j, _, heq⟩ := h
    rw [Prod.mk.injEq] at heq
    rw [← heq.1]
    rfl
  | cat a b iha ihb =>
    intro s gs t h
    simp only [RE.run, List.mem_flatMap, List.mem_map] at h
    obtain ⟨⟨g1, t1⟩, h1, ⟨g2, t2⟩, h2, heq⟩ := h
    rw [Prod.mk.injEq] at heq
    rw [← heq.1, List.length_append]
    rw [iha s g1 t1 h1, ihb t1 g2 t2 h2]
    rfl
  | grp r ih =>
    intro s gs t h
    simp only [RE.run, List.mem_map] at h
    obtain ⟨⟨g', t'⟩, hm, heq⟩ := h
    rw [Prod.mk.injEq] at heq
    rw [← heq.1, List.length_cons, ih s g' t' hm]
    rfl

/-- A successful search is a successful match at some suffix of the input. -/
theorem search_run (r : RE) : ∀ (s : List Char) (gs : List (List Char)),
    RE.search r s = some gs → ∃ s₁ t u, u ++ s₁ = s ∧ (gs, t) ∈ RE.run r s₁ := by
  intro s
  induction s with
  | nil =>
    intro gs h
    rw [RE.search] at h
    cases hh : (RE.run r []).head? with
    | none => rw [hh] at h; simp at h
    | some gt =>
      rw [hh] at h
      simp only [Option.some.injEq] at h
      obtain ⟨ys, hys⟩ := List.head?_eq_some_iff.mp hh
      refine ⟨[], gt.2, [], rfl, ?_⟩
      rw [← h, hys]
      simp
  | cons c t ih =>
    intro gs h
    rw [RE.search] at h
    cases hh : (RE.run r (c :: t)).head? with
    | some gt =>
      rw [hh] at h
      simp only [Option.some.injEq] at h
      obtain ⟨ys, hys⟩ := List.head?_eq_some_iff.mp hh
      refine ⟨c :: t, gt.2, [], rfl, ?_⟩
      rw [← h, hys]
      simp
    | none =>
      rw [hh] at h
      obtain ⟨s₁, t₁, u, hu, hm⟩ := ih gs h
      exact ⟨s₁, t₁, c :: u, by rw [List.cons_append, hu], hm⟩

/-- Captured groups of a successful search are contiguous substrings of the
searched text. -/
theorem search_caps_append (r : RE) (s : List Char) (gs : List (List Char))
    (h : RE.search r s = some gs) : ∀ g ∈ gs, ∃ u v, u ++ g ++ v = s := by
  obtain ⟨s₁, t, u, hu, hm⟩ := search_run r s gs h
  intro g hg
  obtain ⟨u1, v1, huv⟩ := run_caps_append r s₁ gs t hm g hg
  exact ⟨u ++ u1, v1, by rw [← hu, ← huv]; simp [List.append_assoc]⟩

/-- A successful search produces one capture per group of the pattern. -/
theorem search_caps_length (r : RE) (s : List Char) (gs : List (List Char))
    (h : RE.search r s = some gs) : gs.length = RE.grpCount r := by
  obtain ⟨s₁, t, _, _, hm⟩ := search_run r s gs h
  exact run_caps_length r s₁ gs t hm

/-- A pattern that consumes at least one character on every match. -/
def Consumes (r : RE) : Prop :=
  ∀ s gs t, (gs, t) ∈ RE.run r s → t.length < s.length

/-- A pattern whose captured groups are always nonempty. -/
def CapsNonempty (r : RE) : Prop :=
  ∀ s gs t, (gs, t) ∈ RE.run r s → ∀ g ∈ gs, g ≠ []

theorem run_rest_length_le (r : RE) (s : List Char) (gs : List (List Char)) (t : List Char)
    (h : (gs, t) ∈ RE.run r s) : t.length ≤ s.length := by
  obtain ⟨u, hu⟩ := run_rest_append r s gs t h
  rw [← hu]
  simp

theorem consumes_one (p : Char → Bool) : Consumes (.one p) := by
  intro s gs t h
  cases s with
  | nil => simp [RE.run] at h
  | cons c cs =>
    simp only [RE.run] at h
    by_cases hc : p c
    · rw [if_pos hc] at h
      simp only [List.mem_singleton, Prod.mk.injEq] at h
      rw [h.2]
      simp
    · rw [if_neg hc] at h
      simp at h

theorem consumes_cat_left (a b : RE) (ha : Consumes a) : Consumes (.cat a b) := by
  intro s gs t h
  simp only [RE.run, List.mem_flatMap, List.mem_map] at h
  obtain ⟨⟨g1, t1⟩, h1, ⟨g2, t2⟩, h2, heq⟩ := h
  dsimp only at heq h2
  rw [Prod.mk.injEq] at heq
  have hlt := ha s g1 t1 h1
  have hle := run_rest_length_le b t1 g2 t2 h2
  rw [← heq.2]
  omega

theorem consumes_plusC (p : Char → Bool) : Consumes (plusC p) :=
  consumes_cat_left _ _ (consumes_one p)

theorem capsNE_of_no_caps (r : RE) (h0 : RE.grpCount r = 0) : CapsNonempty r := by
  intro s gs t h g hg
  have hl := run_caps_length r s gs t h
  rw [h0] at hl
  rw [List.length_eq_zero.mp hl] at hg
  simp at hg

theorem capsNE_cat (a b : RE) (ha : CapsNonempty a) (hb : CapsNonempty b) :
    CapsNonempty (.cat a b) := by
  intro s gs t h
  simp only [RE.run, List.mem_flatMap, List.mem_map] at h
  obtain ⟨⟨g1, t1⟩, h1, ⟨g2, t2⟩, h2, heq⟩ := h
  rw [Prod.mk.injEq] at heq
  intro g hg
  rw [← heq.1] at hg
  rcases List.mem_append.mp hg with hg' | hg'
  · exact ha s g1 t1 h1 g hg'
  · exact hb t1 g2 t2 h2 g hg'

theorem capsNE_grp (r : RE) (hc : Consumes r) (hr : CapsNonempty r) :
    CapsNonempty (.grp r) := by
  intro s gs t h
  simp only [RE.run, List.mem_map] at h
  obtain ⟨⟨g', t'⟩, hm, heq⟩ := h
  dsimp only at heq
  rw [Prod.mk.injEq] at heq
  intro g hg
  rw [← heq.1] at hg
  rcases List.mem_cons.mp hg with hg' | hg'
  · have hlt := hc s g' t' hm
    rw [hg']
    intro hnil
    rw [List.take_eq_nil_iff] at hnil
    rcases hnil with h0 | h0
    · omega
    · rw [h0] at hlt
      simp at hlt
  · exact hr s g' t' hm g hg'

theorem capsNE_errdisable : CapsNonempty ERR_DISABLE_PATTERN := by
  unfold ERR_DISABLE_PATTERN
  refine capsNE_cat _ _ (capsNE_of_no_caps _ rfl) ?_
  refine capsNE_cat _ _ (capsNE_of_no_caps _ rfl) ?_
  refine capsNE_cat _ _ (capsNE_grp _ (consumes_plusC _) (capsNE_of_no_caps _ rfl)) ?_
  refine capsNE_cat _ _ (capsNE_of_no_caps _ rfl) ?_
  refine capsNE_cat _ _ (capsNE_of_no_caps _ rfl) ?_
  refine capsNE_cat _ _ (capsNE_of_no_caps _ rfl) ?_
  exact capsNE_grp _ (consumes_plusC _) (capsNE_of_no_caps _ rfl)

theorem capsNE_recover : CapsNonempty RECOVER_PATTERN := by
  unfold RECOVER_PATTERN
  refine capsNE_cat _ _ (capsNE_of_no_caps _ rfl) ?_
  refine capsNE_cat _ _ (capsNE_of_no_caps _ rfl) ?_
  refine capsNE_cat _ _ (capsNE_of_no_caps _ rfl) ?_
  refine capsNE_cat _ _ (capsNE_of_no_caps _ rfl) ?_
  refine capsNE_cat _ _ (capsNE_grp _ (consumes_plusC _) (capsNE_of_no_caps _ rfl)) ?_
  refine capsNE_cat _ _ (capsNE_of_no_caps _ rfl) ?_
  refine capsNE_cat _ _ (capsNE_of_no_caps _ rfl) ?_
  refine capsNE_cat _ _ (capsNE_of_no_caps _ rfl) ?_
  exact capsNE_grp _ (consumes_plusC _) (capsNE_of_no_caps _ rfl)

/-- Nonempty captures transfer from the match level to the search level. -/
theorem search_caps_ne (r : RE) (hne : CapsNonempty r) (s : List Char)
    (gs : List (List Char)) (h : RE.search r s = some gs) : ∀ g ∈ gs, g ≠ [] := by
  obtain ⟨s₁, t, _, _, hm⟩ := search_run r s gs h
  exact hne s₁ gs t hm

/-! ### Idempotence of the normalizer -/

theorem dropWhile_idem (p : Char → Bool) (l : List Char) :
    (l.dropWhile p).dropWhile p = l.dropWhile p := by
  induction l with
  | nil => rfl
  | cons c t ih =>
    by_cases hc : p c
    · simp [List.dropWhile_cons, hc, ih]
    · simp [List.dropWhile_cons, hc]

/-- Dropping trailing whitespace leaves the head untouched, so a second pass
of leading-whitespace removal does nothing. -/
theorem dropWhile_revDrop (p : Char → Bool) (s : List Char) :
    (((s.dropWhile p).reverse.dropWhile p).reverse).dropWhile p
      = ((s.dropWhile p).reverse.dropWhile p).reverse := by
  cases hE : ((s.dropWhile p).reverse.dropWhile p).reverse with
  | nil => rfl
  | cons c t =>
    have hsplit : (s.dropWhile p).reverse.takeWhile p ++ (s.dropWhile p).reverse.dropWhile p
        = (s.dropWhile p).reverse := List.takeWhile_append_dropWhile p ((s.dropWhile p).reverse)
    have h2 : ((s.dropWhile p).reverse.dropWhile p).reverse
        ++ ((s.dropWhile p).reverse.takeWhile p).reverse = s.dropWhile p := by
      have h3 := congrArg List.reverse hsplit
      rw [List.reverse_append] at h3
      simpa using h3
    rw [hE] at h2
    have hd : (s.dropWhile p).head? = some c := by
      rw [← h2]
      rfl
    have hpc := List.head?_dropWhile_not p s
    rw [hd] at hpc
    simp only [List.dropWhile_cons, hpc]
    simp

theorem stripChars_idem (s : List Char) : stripChars (stripChars s) = stripChars s := by
  unfold stripChars
  rw [dropWhile_revDrop, List.reverse_reverse]
  exact dropWhile_revDrop isSpaceChar s

theorem charLower_mem_preprocess (raw : List Char) (c : Char)
    (hc : c ∈ preprocess_text raw) : charLower c = c := by
  unfold preprocess_text at hc
  by_cases h : raw = []
  · rw [if_pos h] at hc
    simp at hc
  · rw [if_neg h] at hc
    have hmem : c ∈ raw.map charLower := mem_of_stripChars hc
    obtain ⟨c', _, hc'⟩ := List.mem_map.mp hmem
    rw [← hc']
    exact charLower_charLower c'

/-- C6: applying the normalizer twice equals applying it once:
`preprocess_text (preprocess_text x) = preprocess_text x` for every string x. -/
theorem preprocess_text_idem (x : List Char) :
    preprocess_text (preprocess_text x) = preprocess_text x := by
  have hlow : ∀ c ∈ preprocess_text x, charLower c = c := charLower_mem_preprocess x
  unfold preprocess_text
  by_cases hx : x = []
  · simp [hx]
  · simp only [if_neg hx]
    by_cases hy : stripChars (x.map charLower) = []
    · rw [if_pos hy]
      exact hy.symm
    · rw [if_neg hy]
      have hmap : (stripChars (x.map charLower)).map charLower = stripChars (x.map charLower) := by
        apply map_charLower_eq_self
        intro c hc
        apply hlow
        unfold preprocess_text
        rw [if_neg hx]
        exact hc
      rw [hmap, stripChars_idem]

/-- C7: the classifier ignores the raw line except for the device field: the
event type, reason, interface, and the matched-versus-None outcome of
`extract_fields` are the same for any two raw lines supplied alongside the
same normalized text. -/
theorem classifier_ignores_device (n r1 r2 : List Char) :
    Option.map (fun f => (f.event_type, f.reason, f.interface)) (extract_fields n r1) =
    Option.map (fun f => (f.event_type, f.reason, f.interface)) (extract_fields n r2) := by
  by_cases hn : n = []
  · simp [extract_fields, hn]
  · simp only [extract_fields, if_neg hn]
    cases hE : RE.search ERR_DISABLE_PATTERN n with
    | some gs => simp
    | none =>
      cases hR : RE.search RECOVER_PATTERN n with
      | some gs => simp
      | none => simp

/-- C9: the row builder of the sink flush captures one `current_time` per call
and stamps it as `ingestion_time` on every row of the batch, so all rows of a
flush carry the same ingestion time. -/
theorem ingestion_time_uniform (current_time : List Char) (records : List BQRecord) :
    (insert_to_bigquery_rows current_time records).map (fun row => row.ingestion_time) =
      records.map (fun _ => current_time) := by
  unfold insert_to_bigquery_rows
  by_cases h : records = []
  · simp [h]
  · rw [if_neg h, List.map_map]
    rfl

/-! ### Classification claims -/

/-- C1: whenever the normalized form of an input line matches the ERR_DISABLE
pattern with reason R and interface I, `extract_fields` returns event type
ERR_DISABLE with reason the case-folded form of R and interface the
case-folded form of I (the device field coming from the raw line). -/
theorem errdisable_classification (raw r i : List Char) (g : List (List Char))
    (h : RE.search ERR_DISABLE_PATTERN (preprocess_text raw) = some (r :: i :: g)) :
    extract_fields (preprocess_text raw) raw =
      some ⟨("ERR_DISABLE".toList), extract_device_name raw,
            r.map charLower, i.map charLower⟩ := by
  have hne : preprocess_text raw ≠ [] := by
    intro h0
    rw [h0] at h
    rw [show RE.search ERR_DISABLE_PATTERN [] = none from rfl] at h
    exact Option.noConfusion h
  have hsub := search_caps_append _ _ _ h
  have hr : r.map charLower = r := by
    apply map_charLower_eq_self
    intro c hc
    apply charLower_mem_preprocess raw
    obtain ⟨u, v, huv⟩ := hsub r (by simp)
    rw [← huv]
    simp [hc]
  have hi : i.map charLower = i := by
    apply map_charLower_eq_self
    intro c hc
    apply charLower_mem_preprocess raw
    obtain ⟨u, v, huv⟩ := hsub i (by simp)
    rw [← huv]
    simp [hc]
  simp only [extract_fields, if_neg hne, h]
  simp [hr, hi]

/-- Witness for C1: spec scenario 1. -/
theorem errdisable_classification_witness :
    extract_fields
        (preprocess_text ("SW1 %PM-4-ERR_DISABLE: bpduguard error detected on Gi1/0/1".toList))
        ("SW1 %PM-4-ERR_DISABLE: bpduguard error detected on Gi1/0/1".toList) =
      some ⟨("ERR_DISABLE".toList),
            extract_device_name ("SW1 %PM-4-ERR_DISABLE: bpduguard error detected on Gi1/0/1".toList),
            (("bpduguard".toList).map charLower), (("gi1/0/1".toList).map charLower)⟩ :=
  errdisable_classification ("SW1 %PM-4-ERR_DISABLE: bpduguard error detected on Gi1/0/1".toList)
    ("bpduguard".toList) ("gi1/0/1".toList) [] (by decide)

/-- C2: on a normalized line that satisfies both patterns, the ERR_DISABLE
branch wins: `extract_fields` returns the ERR_DISABLE fields. -/
theorem errdisable_wins_tie (n raw r i : List Char) (g gs : List (List Char))
    (hd : RE.search ERR_DISABLE_PATTERN n = some (r :: i :: g))
    (_hr : RE.search RECOVER_PATTERN n = some gs) :
    extract_fields n raw =
      some ⟨("ERR_DISABLE".toList), extract_device_name raw, r, i⟩ := by
  have hne : n ≠ [] := by
    intro h0
    rw [h0] at hd
    rw [show RE.search ERR_DISABLE_PATTERN [] = none from rfl] at hd
    exact Option.noConfusion hd
  simp only [extract_fields, if_neg hne, hd]
  simp

/-- Witness for C2: a crafted line that satisfies both patterns. -/
theorem errdisable_wins_tie_witness :
    extract_fields
        ("%pm-4-err_disable: x error detected on %pm-4-err_recover: attempting to recover from y err-disable state on z".toList)
        ("%pm-4-err_disable: x error detected on %pm-4-err_recover: attempting to recover from y err-disable state on z".toList) =
      some ⟨("ERR_DISABLE".toList),
            extract_device_name ("%pm-4-err_disable: x error detected on %pm-4-err_recover: attempting to recover from y err-disable state on z".toList),
            ("x".toList), ("%pm-4-err_recover:".toList)⟩ :=
  errdisable_wins_tie
    ("%pm-4-err_disable: x error detected on %pm-4-err_recover: attempting to recover from y err-disable state on z".toList)
    ("%pm-4-err_disable: x error detected on %pm-4-err_recover: attempting to recover from y err-disable state on z".toList)
    ("x".toList) ("%pm-4-err_recover:".toList) []
    [("y".toList), ("z".toList)] (by decide) (by decide)

/-- C8: whenever `extract_fields` returns fields (the line is not UNMATCHED),
the reason and the interface are nonempty strings. -/
theorem matched_fields_nonempty (n raw : List Char) (f : ExtractedFields)
    (h : extract_fields n raw = some f) : f.reason ≠ [] ∧ f.interface ≠ [] := by
  by_cases hn : n = []
  · rw [extract_fields, if_pos hn] at h
    exact Option.noConfusion h
  · simp only [extract_fields, if_neg hn] at h
    cases hE : RE.search ERR_DISABLE_PATTERN n with
    | some gs =>
      rw [hE] at h
      have hlen : gs.length = 2 := by
        rw [search_caps_length _ _ _ hE]
        rfl
      obtain ⟨a, b, rfl⟩ := List.length_eq_two.mp hlen
      have hcne := search_caps_ne _ capsNE_errdisable _ _ hE
      simp only [Option.some.injEq] at h
      rw [← h]
      exact ⟨hcne a (by simp), hcne b (by simp)⟩
    | none =>
      rw [hE] at h
      cases hR : RE.search RECOVER_PATTERN n with
      | some gs =>
        rw [hR] at h
        have hlen : gs.length = 2 := by
          rw [search_caps_length _ _ _ hR]
          rfl
        obtain ⟨a, b, rfl⟩ := List.length_eq_two.mp hlen
        have hcne := search_caps_ne _ capsNE_recover _ _ hR
        simp only [Option.some.injEq] at h
        rw [← h]
        exact ⟨hcne a (by simp), hcne b (by simp)⟩
      | none =>
        rw [hR] at h
        exact Option.noConfusion h

/-- Witness for C8: spec scenario 2 (an ERR_RECOVER line). -/
theorem matched_fields_nonempty_witness :
    (⟨("ERR_RECOVER".toList),
      extract_device_name ("SW2 %PM-4-ERR_RECOVER: Attempting to recover from bpduguard err-disable state on Gi1/0/2".toList),
      ("bpduguard".toList), ("gi1/0/2".toList)⟩ : ExtractedFields).reason ≠ [] ∧
    (⟨("ERR_RECOVER".toList),
      extract_device_name ("SW2 %PM-4-ERR_RECOVER: Attempting to recover from bpduguard err-disable state on Gi1/0/2".toList),
      ("bpduguard".toList), ("gi1/0/2".toList)⟩ : ExtractedFields).interface ≠ [] :=
  matched_fields_nonempty
    (preprocess_text ("SW2 %PM-4-ERR_RECOVER: Attempting to recover from bpduguard err-disable state on Gi1/0/2".toList))
    ("SW2 %PM-4-ERR_RECOVER: Attempting to recover from bpduguard err-disable state on Gi1/0/2".toList)
    _ (by decide)

/-- C5: device extraction returns the sentinel when nothing matches (in
particular on empty input), and otherwise returns group 1 of the device
pattern verbatim: a contiguous substring of the original raw line, with its
letter case preserved. Being a total function, it never raises. -/
theorem device_extraction (raw_log : List Char) :
    (RE.search DEVICE_PATTERN raw_log = none → extract_device_name raw_log = unknownStr) ∧
    (∀ g gs, RE.search DEVICE_PATTERN raw_log = some (g :: gs) →
        extract_device_name raw_log = g ∧ ∃ u v, u ++ g ++ v = raw_log) := by
  constructor
  · intro h
    by_cases hr : raw_log = []
    · rw [extract_device_name, if_pos hr]
    · simp [extract_device_name, if_neg hr, h]
  · intro g gs h
    have hr : raw_log ≠ [] := by
      intro h0
      rw [h0] at h
      rw [show RE.search DEVICE_PATTERN [] = none from rfl] at h
      exact Option.noConfusion h
    constructor
    · simp [extract_device_name, if_neg hr, h]
    · obtain ⟨u, v, huv⟩ := search_caps_append _ _ _ h g (by simp)
      exact ⟨u, v, huv⟩

/-- Witness for C5: an unmatched line yields the sentinel, and a matched line
yields the device token with case preserved. -/
theorem device_extraction_witness :
    extract_device_name ("no marker in this line".toList) = unknownStr ∧
    extract_device_name ("SW1 %PM-4-ERR_DISABLE: bpduguard".toList) = ("SW1".toList) :=
  ⟨(device_extraction ("no marker in this line".toList)).1 (by decide),
   ((device_extraction ("SW1 %PM-4-ERR_DISABLE: bpduguard".toList)).2
     ("SW1".toList) [] (by decide)).1⟩

/-! ### Batch pipeline claims -/

theorem process_raw_messages (clock : Nat → List Char) :
    ∀ (lines : List (List Char)) (k : Nat),
      ((process_lines clock k lines).1).map (fun q => q.raw_message) =
        lines.filter lineMatches := by
  intro lines
  induction lines with
  | nil => intro k; rfl
  | cons line rest ih =>
    intro k
    by_cases hskip : line = [] ∨ stripChars line = []
    · have hlm : lineMatches line = false := by
        rw [lineMatches, if_pos hskip]
      simp only [process_lines, if_pos hskip, List.filter_cons, hlm]
      simpa using ih k
    · cases hE : extract_fields (preprocess_text line) line with
      | some ex =>
        have hlm : lineMatches line = true := by
          rw [lineMatches, if_neg hskip, hE]
          rfl
        simp only [process_lines, if_neg hskip, hE, List.filter_cons, hlm]
        simp [ih (k + 1)]
      | none =>
        have hlm : lineMatches line = false := by
          rw [lineMatches, if_neg hskip, hE]
          rfl
        simp only [process_lines, if_neg hskip, hE, List.filter_cons, hlm]
        simpa using ih k

/-- C3: a batch of lines with M matching lines produces exactly M records,
whose raw messages are exactly the matching lines in their input order (no
reordering, no deduplication). -/
theorem batch_order_preserved (clock : Nat → List Char) (k : Nat) (lines : List (List Char)) :
    ((process_lines clock k lines).1).map (fun q => q.raw_message) =
        lines.filter lineMatches ∧
    ((process_lines clock k lines).1).length = (lines.filter lineMatches).length := by
  refine ⟨process_raw_messages clock lines k, ?_⟩
  have h := congrArg List.length (process_raw_messages clock lines k)
  simpa using h

/-- C4: an empty or whitespace-only line increments the skipped counter and
produces no record; the rest of the batch is processed exactly as if the line
were absent (in particular the line is never normalized or classified). -/
theorem blank_line_skipped (clock : Nat → List Char) (k : Nat) (line : List Char)
    (rest : List (List Char)) (h : stripChars line = []) :
    process_lines clock k (line :: rest) =
      ((process_lines clock k rest).1, (process_lines clock k rest).2 + 1) := by
  simp only [process_lines, if_pos (Or.inr h)]

/-- Witness for C4: a single-space line. -/
theorem blank_line_skipped_witness :
    process_lines (fun _ => []) 0 ((" ".toList) :: []) =
      ((process_lines (fun _ => []) 0 []).1, (process_lines (fun _ => []) 0 []).2 + 1) :=
  blank_line_skipped (fun _ => []) 0 (" ".toList) [] (by decide)

/-- C10: each line contributes to at most one of the skipped or matched
counters, so the record count plus the skipped count never exceeds the number
of lines seen. -/
theorem counters_bounded (clock : Nat → List Char) (k : Nat) (lines : List (List Char)) :
    ((process_lines clock k lines).1).length + (process_lines clock k lines).2 ≤
      lines.length := by
  induction lines generalizing k with
  | nil => simp [process_lines]
  | cons line rest ih =>
    by_cases hskip : line = [] ∨ stripChars line = []
    · simp only [process_lines, if_pos hskip, List.length_cons]
      have h := ih k
      omega
    · cases hE : extract_fields (preprocess_text line) line with
      | some ex =>
        simp only [process_lines, if_neg hskip, hE, List.length_cons]
        have h := ih (k + 1)
        omega
      | none =>
        simp only [process_lines, if_neg hskip, hE, List.length_cons]
        have h := ih k
        omega
